import Mathlib

/-!
Verification of the price-initialization and tick-range computation subsystem
of the push-swap repository (scripts/cli/add-liquidity.js and
scripts/core/config.js), against its natural-language specification.

The JavaScript source is shallowly embedded:
* bignumber.js values (DECIMAL_PLACES 40, default ROUND_HALF_UP) are modelled
  as exact rationals, with the two operations that round - dividedBy and
  sqrt - rounding half-up to 40 decimal places; multipliedBy, pow and
  integerValue(ROUND_FLOOR) are exact.
* JavaScript numbers reaching the bignumber path are modelled as the exact
  rational value of their decimal string.
* Math.sqrt in the superseded floating-point implementation is modelled as
  correctly rounded IEEE-754 binary64 square root (round to nearest, ties to
  even), and toFixed(18) by its ECMA-262 definition (nearest multiple of
  10^-18, ties away from the smaller value); Math.pow is only
  implementation-approximated by ECMA-262, so the branch that uses it is
  left unmodelled (Option.none).
* Tick arithmetic on JavaScript numbers is exact in the relevant range
  (ticks are bounded by +-887272, far below 2^53), so Math.floor(a/b) and
  Math.ceil(a/b) are modelled as floor and ceiling of exact rational
  division.
-/

namespace PushSwap

/-- A token as the scripts see it: an address string, the ERC-20 symbol
string and the number of decimals (all fetched from the chain). -/
structure Token where
  address : String
  symbol : String
  decimals : Nat

/-- Model of the JavaScript toLowerCase() on ASCII address strings,
written over the character list so that the kernel can evaluate it
(String.toLower itself is defined by well-founded recursion on positions). -/
def strToLower (s : String) : String :=
  String.mk (s.data.map Char.toLower)

/-- config.js sortTokens:
tokenA.toLowerCase() < tokenB.toLowerCase() ? [tokenA, tokenB] : [tokenB, tokenA]. -/
def sortTokens (a b : Token) : Token × Token :=
  if strToLower a.address < strToLower b.address then (a, b) else (b, a)

/-- bignumber.js rounding of a nonnegative value to DECIMAL_PLACES = 40
with the default ROUND_HALF_UP mode. -/
def roundHU40 (q : ℚ) : ℚ :=
  (⌊q * 10 ^ 40 + 1 / 2⌋ : ℚ) / 10 ^ 40

/-- bignumber.js dividedBy under the configured 40 decimal places:
the exact quotient rounded half-up to 40 decimal places. -/
def bnDiv40 (a b : ℚ) : ℚ :=
  roundHU40 (a / b)

/-- bignumber.js sqrt under the configured 40 decimal places: the square
root rounded half-up to 40 decimal places.  The rounded numerator
round(sqrt(q) * 10^40) is computed exactly on naturals as
(floor(sqrt(4 * q * 10^80)) + 1) / 2, since floor(v + 1/2) =
(floor(2 * v) + 1) / 2 and floor(2 * sqrt(q) * 10^40) =
floor(sqrt(4 * q * 10^80)). -/
def bnSqrt40 (q : ℚ) : ℚ :=
  ((Nat.sqrt (⌊4 * q * 10 ^ 80⌋).toNat + 1) / 2 : ℕ) / 10 ^ 40

/-- add-liquidity.js calculateSqrtPriceX96Precise (current version, using
bignumber.js): baseUnitRatio = price * 10^token1Decimals / 10^token0Decimals,
then sqrt, times 2^96, floored to an integer.  The price argument is the
human-readable ratio token1/token0. -/
def calculateSqrtPriceX96Precise (price : ℚ) (token0Decimals token1Decimals : ℕ) : ℕ :=
  (⌊bnSqrt40 (bnDiv40 (price * 10 ^ token1Decimals) (10 ^ token0Decimals)) * 2 ^ 96⌋).toNat

/-- Rounding of a nonnegative rational to the nearest natural number with
ties going to the even neighbour, the tie rule shared by IEEE-754 binary64
rounding and by the digit choice of the ECMA-262 Number-to-string
conversion. -/
def nearestTE (q : ℚ) : ℕ :=
  if ((⌊q⌋).toNat : ℚ) + 1 / 2 < q then (⌊q⌋).toNat + 1
  else if q < ((⌊q⌋).toNat : ℚ) + 1 / 2 then (⌊q⌋).toNat
  else if (⌊q⌋).toNat % 2 = 0 then (⌊q⌋).toNat else (⌊q⌋).toNat + 1

/-- Binary64 rounding, step 1: the 600-bit scaled truncation floor(q * 2^600),
used to locate the binary exponent of q (valid for the normal range,
q > 2^-600). -/
def roundB64T (q : ℚ) : ℕ :=
  (⌊q * 2 ^ 600⌋).toNat

/-- Binary64 rounding, step 2: the binary exponent e with 2^e <= q < 2^(e+1). -/
def roundB64Exp (q : ℚ) : ℤ :=
  (Nat.log2 (roundB64T q) : ℤ) - 600

/-- Binary64 rounding, step 3: the real-valued 53-bit significand q * 2^(52-e). -/
def roundB64Sig (q : ℚ) : ℚ :=
  q * 2 ^ ((52 : ℤ) - roundB64Exp q)

/-- Binary64 rounding, step 4: the significand rounded to nearest, ties to
even. -/
def roundB64M (q : ℚ) : ℕ :=
  nearestTE (roundB64Sig q)

/-- Model of rounding a positive normal-range rational to the nearest
IEEE-754 binary64 value (ties to even): the ECMA-262 semantics of the
JavaScript division 1 / priceRatio is the correctly rounded quotient,
i.e. roundB64 applied to the exact quotient. -/
def roundB64 (q : ℚ) : ℚ :=
  (roundB64M q : ℚ) * 2 ^ (roundB64Exp q - 52)

/-- Decimal exponent, step 1: the scaled truncation floor(x * 10^400)
(valid for x > 10^-400). -/
def decExpT (x : ℚ) : ℕ :=
  (⌊x * 10 ^ 400⌋).toNat

/-- Decimal exponent, step 2: the n with 10^(n-1) <= x < 10^n, as in the
ECMA-262 Number-to-string algorithm. -/
def decExp (x : ℚ) : ℤ :=
  (Nat.log 10 (decExpT x) : ℤ) - 400 + 1

/-- ECMA-262 Number::toString digit search: try k = 1, 2, ... significant
digits; at each k take the k-digit value closest to x (ties to even) and
return it if it rounds back to the binary64 value x.  The empty-list
fallback returns x itself; it is unreachable for binary64 inputs because
17 significant digits always round-trip. -/
def jsStrGo (x : ℚ) (n : ℤ) : List ℕ → ℚ
  | [] => x
  | k :: rest =>
      if roundB64 ((nearestTE (x * 10 ^ ((k : ℤ) - n)) : ℚ) * 10 ^ (n - (k : ℤ))) = x
      then (nearestTE (x * 10 ^ ((k : ℤ) - n)) : ℚ) * 10 ^ (n - (k : ℤ))
      else jsStrGo x n rest

/-- Model of the exact rational value of the decimal string
priceRatio.toString() of a positive binary64 value x, per ECMA-262: the
value with the fewest significant digits (digits chosen nearest, ties to
even) that converts back to x.  The requirement that the digit string not
end in 0 is implied by the minimality of k. -/
def jsStr (x : ℚ) : ℚ :=
  jsStrGo x (decExp x) [1, 2, 3, 4, 5, 6, 7, 8, 9, 10, 11, 12, 13, 14, 15, 16, 17]

/-- Model of the createPool inversion actualPriceRatio = 1 / priceRatio as
the encoder receives it: the exact quotient is rounded to binary64 by the
JavaScript division, and the bignumber constructor then receives the
decimal string of that double, whose exact value is jsStr of it. -/
def jsInv (price : ℚ) : ℚ :=
  jsStr (roundB64 (1 / price))

/-- The pricing path of add-liquidity.js createPool (current version):
sort the two tokens, invert the human ratio when the symbol comparison
says the input order is swapped relative to the sorted order
(inputSymbol0 === sortedSymbol1 && inputSymbol1 === sortedSymbol0) - the
inversion being the binary64 division followed by the decimal-string
handoff - then encode with the sorted tokens' decimals. -/
def encodePrice (t0 t1 : Token) (price : ℚ) : ℕ :=
  calculateSqrtPriceX96Precise
    (if t0.symbol = (sortTokens t0 t1).2.symbol ∧ t1.symbol = (sortTokens t0 t1).1.symbol
      then jsInv price else price)
    (sortTokens t0 t1).1.decimals (sortTokens t0 t1).2.decimals

/-- A JavaScript number as far as the createPool ratio guard can observe it:
a finite value (an exact rational), NaN, or one of the two infinities. -/
inductive JSNum where
  | num : ℚ → JSNum
  | nan : JSNum
  | inf : JSNum
  | negInf : JSNum

/-- JavaScript comparison x <= 0: false whenever x is NaN, false for
+Infinity, true for -Infinity. -/
def jsLeZero : JSNum → Bool
  | JSNum.num q => decide (q ≤ 0)
  | JSNum.nan => false
  | JSNum.inf => false
  | JSNum.negInf => true

/-- The ratio guard of createPool: if (priceRatio <= 0) throw ... .
Returns true when the call is rejected. -/
def createPoolRejects (price : JSNum) : Bool :=
  jsLeZero price

/-- add-liquidity.js tick spacing resolution:
fee === 500 ? 10 : fee === 3000 ? 60 : 200
(note the silent fallback to 200 for any unrecognized fee). -/
def tickSpacing (fee : ℤ) : ℤ :=
  if fee = 500 then 10 else if fee = 3000 then 60 else 200

/-- addLiquidityToPool: baseTickRange = fee === 500 ? 2000 : fee === 3000 ? 5000 : 10000. -/
def baseTickRange (fee : ℤ) : ℤ :=
  if fee = 500 then 2000 else if fee = 3000 then 5000 else 10000

/-- addLiquidityToPool: tickRange = Math.max(baseTickRange, tickSpacing * 50). -/
def tickRange (fee : ℤ) : ℤ :=
  max (baseTickRange fee) (tickSpacing fee * 50)

/-- addLiquidityToPool: tickLower = Math.floor((currentTick - tickRange) / tickSpacing) * tickSpacing.
The half width is an explicit argument; the source instantiates it with
the constant 120 in one version and with tickRange fee in the other. -/
def tickLowerPlan (fee currentTick halfWidth : ℤ) : ℤ :=
  ⌊((currentTick - halfWidth : ℤ) : ℚ) / ((tickSpacing fee : ℤ) : ℚ)⌋ * tickSpacing fee

/-- addLiquidityToPool: tickUpper = Math.ceil((currentTick + tickRange) / tickSpacing) * tickSpacing. -/
def tickUpperPlan (fee currentTick halfWidth : ℤ) : ℤ :=
  ⌈((currentTick + halfWidth : ℤ) : ℚ) / ((tickSpacing fee : ℤ) : ℚ)⌉ * tickSpacing fee

/-- addFullRangeLiquidity: const MIN_TICK = -887272. -/
def MIN_TICK : ℤ := -887272

/-- addFullRangeLiquidity: const MAX_TICK = 887272. -/
def MAX_TICK : ℤ := 887272

/-- Model of Math.sqrt, step 1: the 600-bit scaled truncated square root
floor(sqrt(q) * 2^600), used below to locate the binary exponent of
sqrt(q). -/
def sqrtDoubleT (q : ℚ) : ℕ :=
  Nat.sqrt (⌊q * 2 ^ 1200⌋).toNat

/-- Model of Math.sqrt, step 2: the binary exponent e with
2^e <= sqrt(q) < 2^(e+1), for q in the normal binary64 range. -/
def sqrtDoubleExp (q : ℚ) : ℤ :=
  (Nat.log2 (sqrtDoubleT q) : ℤ) - 600

/-- Model of Math.sqrt, step 3: q scaled so that its square root is the
real-valued 53-bit significand of sqrt(q), namely (sqrt(q) * 2^(52-e))^2. -/
def sqrtDoubleScaled (q : ℚ) : ℚ :=
  q * 4 ^ (52 - sqrtDoubleExp q)

/-- Model of Math.sqrt, step 4: the truncated 53-bit significand
floor(sqrt(q) * 2^(52-e)). -/
def sqrtDoubleM0 (q : ℚ) : ℕ :=
  Nat.sqrt (⌊sqrtDoubleScaled q⌋).toNat

/-- Model of Math.sqrt, step 5: the correctly rounded 53-bit significand:
round to nearest by comparing (2 m0 + 1)^2 with 4 * (sqrt(q) * 2^(52-e))^2
exactly, with ties going to the even significand. -/
def sqrtDoubleM (q : ℚ) : ℕ :=
  if ((2 * sqrtDoubleM0 q + 1 : ℕ) : ℚ) ^ 2 < 4 * sqrtDoubleScaled q then sqrtDoubleM0 q + 1
  else if 4 * sqrtDoubleScaled q < ((2 * sqrtDoubleM0 q + 1 : ℕ) : ℚ) ^ 2 then sqrtDoubleM0 q
  else if sqrtDoubleM0 q % 2 = 0 then sqrtDoubleM0 q else sqrtDoubleM0 q + 1

/-- Model of JavaScript Math.sqrt on a positive normal-range argument:
the IEEE-754 binary64 value nearest to sqrt(q) (ties to even), namely the
rounded 53-bit significand times 2^(e-52). -/
def sqrtDouble (q : ℚ) : ℚ :=
  (sqrtDoubleM q : ℚ) * 2 ^ (sqrtDoubleExp q - 52)

/-- Model of x.toFixed(18) followed by ethers.utils.parseUnits(..., 18):
the integer n minimizing the distance of n / 10^18 to x, larger n on ties
(ECMA-262 Number.prototype.toFixed), i.e. floor(x * 10^18 + 1/2) for the
nonnegative x arising here. -/
def toFixed18Units (x : ℚ) : ℕ :=
  (⌊x * 10 ^ 18 + 1 / 2⌋).toNat

/-- add-liquidity.js calculateSqrtPriceX96Precise (superseded first version,
using native binary floating point).  Same decimals: special cases for
price 1 and 4, otherwise sqrtScaled = parseUnits(Math.sqrt(price).toFixed(18), 18)
and sqrtScaled * 2^96 / 10^18 with truncating BigNumber division.  The
different-decimals branch multiplies by Math.pow(10, decimalDiff), which
ECMA-262 only specifies as implementation-approximated, so that branch is
not modelled (none). -/
def calculateSqrtPriceX96PreciseFloat (price : ℚ) (token0Decimals token1Decimals : ℕ) :
    Option ℕ :=
  if token0Decimals = token1Decimals then
    if price = 1 then some (2 ^ 96)
    else if price = 4 then some (2 ^ 96 * 2)
    else some (toFixed18Units (sqrtDouble price) * 2 ^ 96 / 10 ^ 18)
  else none

/-- The specification formula (spec 4.1 step 4, stated for the refinement
comparison): sqrtPriceX96 = floor(sqrt(rawRatio) * 2^96) where
rawRatio = priceCanonical * 10^(d1 - d0), computed exactly as the integer
square root of floor(rawRatio * 2^192); the theorem
specSqrtPriceX96_eq_floor_sqrt below proves this transformation faithful
to the real-number formula. -/
def specSqrtPriceX96 (priceCanonical : ℚ) (d0 d1 : ℕ) : ℕ :=
  Nat.sqrt (⌊priceCanonical * 10 ^ d1 / 10 ^ d0 * 2 ^ 192⌋).toNat

/-- Concrete 18-decimals token whose address sorts first. -/
def tokenPETH18 : Token := ⟨"0xaaa1", "PETH", 18⟩

/-- Concrete 18-decimals token whose address sorts second. -/
def tokenPUSDC18 : Token := ⟨"0xbbb2", "PUSDC", 18⟩

/-- Concrete 6-decimals token whose address sorts second. -/
def tokenPUSDC6 : Token := ⟨"0xbbb2", "PUSDC", 6⟩

/-- Concrete token for the shared-symbol counterexample, address sorts first. -/
def tokenDupA : Token := ⟨"0xaaa1", "TKN", 18⟩

/-- Concrete token for the shared-symbol counterexample, address sorts second,
same symbol as tokenDupA but a different address. -/
def tokenDupB : Token := ⟨"0xbbb2", "TKN", 18⟩

end PushSwap

namespace PushSwap

/-- Helper: evaluate Nat.sqrt at a point from the two bracketing bounds. -/
theorem natSqrtEq (n k : ℕ) (h1 : k * k ≤ n) (h2 : n < (k + 1) * (k + 1)) :
    Nat.sqrt n = k :=
  le_antisymm (Nat.lt_succ_iff.mp (Nat.sqrt_lt.mpr h2)) (Nat.le_sqrt.mpr h1)

/-- Helper: the code's tick spacing is positive for every fee value. -/
theorem tickSpacing_pos (fee : ℤ) : 0 < tickSpacing fee := by
  unfold tickSpacing
  split_ifs <;> norm_num

/-- Helper: the floored grid-aligned lower bound never exceeds the raw bound. -/
theorem tickLowerPlan_le (fee t r : ℤ) : tickLowerPlan fee t r ≤ t - r := by
  have hs : (0 : ℚ) < ((tickSpacing fee : ℤ) : ℚ) := by
    exact_mod_cast tickSpacing_pos fee
  have h1 : (⌊((t - r : ℤ) : ℚ) / ((tickSpacing fee : ℤ) : ℚ)⌋ : ℚ)
      ≤ ((t - r : ℤ) : ℚ) / ((tickSpacing fee : ℤ) : ℚ) := Int.floor_le _
  have h2 : (⌊((t - r : ℤ) : ℚ) / ((tickSpacing fee : ℤ) : ℚ)⌋ : ℚ) * ((tickSpacing fee : ℤ) : ℚ)
      ≤ ((t - r : ℤ) : ℚ) / ((tickSpacing fee : ℤ) : ℚ) * ((tickSpacing fee : ℤ) : ℚ) :=
    mul_le_mul_of_nonneg_right h1 (le_of_lt hs)
  rw [div_mul_cancel₀ _ (ne_of_gt hs)] at h2
  have : ((tickLowerPlan fee t r : ℤ) : ℚ) ≤ ((t - r : ℤ) : ℚ) := by
    unfold tickLowerPlan
    push_cast
    push_cast at h2
    exact h2
  exact_mod_cast this

/-- Helper: the ceiled grid-aligned upper bound is at least the raw bound. -/
theorem le_tickUpperPlan (fee t r : ℤ) : t + r ≤ tickUpperPlan fee t r := by
  have hs : (0 : ℚ) < ((tickSpacing fee : ℤ) : ℚ) := by
    exact_mod_cast tickSpacing_pos fee
  have h1 : ((t + r : ℤ) : ℚ) / ((tickSpacing fee : ℤ) : ℚ)
      ≤ (⌈((t + r : ℤ) : ℚ) / ((tickSpacing fee : ℤ) : ℚ)⌉ : ℚ) := Int.le_ceil _
  have h2 : ((t + r : ℤ) : ℚ) / ((tickSpacing fee : ℤ) : ℚ) * ((tickSpacing fee : ℤ) : ℚ)
      ≤ (⌈((t + r : ℤ) : ℚ) / ((tickSpacing fee : ℤ) : ℚ)⌉ : ℚ) * ((tickSpacing fee : ℤ) : ℚ) :=
    mul_le_mul_of_nonneg_right h1 (le_of_lt hs)
  rw [div_mul_cancel₀ _ (ne_of_gt hs)] at h2
  have : ((t + r : ℤ) : ℚ) ≤ ((tickUpperPlan fee t r : ℤ) : ℚ) := by
    unfold tickUpperPlan
    push_cast
    push_cast at h2
    exact h2
  exact_mod_cast this

/-- C2: the tick-range planner does not fail on an unrecognized fee tier;
it silently substitutes the default tick spacing 200 (here evaluated at the
failing input 9999), while resolving 10, 60, 200 for the enumerated tiers.
This records the divergence between the code and the specified hard
UnknownFeeTier error. -/
theorem c2_feeTier_fallback :
    tickSpacing 9999 = 200 ∧ tickSpacing 500 = 10 ∧
    tickSpacing 3000 = 60 ∧ tickSpacing 10000 = 200 := by
  refine ⟨?_, ?_, ?_, ?_⟩ <;> decide

/-- C3: for every enumerated fee tier and all integer current tick and half
width, the planned bounds are multiples of the tick spacing, the lower bound
is at most currentTick - halfWidth and the upper bound is at least
currentTick + halfWidth. -/
theorem c3_tick_alignment (fee t r : ℤ)
    (hfee : fee = 500 ∨ fee = 3000 ∨ fee = 10000) :
    tickLowerPlan fee t r % tickSpacing fee = 0 ∧
    tickUpperPlan fee t r % tickSpacing fee = 0 ∧
    tickLowerPlan fee t r ≤ t - r ∧
    t + r ≤ tickUpperPlan fee t r := by
  refine ⟨?_, ?_, tickLowerPlan_le fee t r, le_tickUpperPlan fee t r⟩
  · unfold tickLowerPlan
    exact Int.emod_eq_zero_of_dvd (dvd_mul_left _ _)
  · unfold tickUpperPlan
    exact Int.emod_eq_zero_of_dvd (dvd_mul_left _ _)

/-- Witness for C3 at fee 3000, current tick 12345, half width 120. -/
theorem c3_witness :
    ((3000 : ℤ) = 500 ∨ (3000 : ℤ) = 3000 ∨ (3000 : ℤ) = 10000) ∧
    (tickLowerPlan 3000 12345 120 % tickSpacing 3000 = 0 ∧
      tickUpperPlan 3000 12345 120 % tickSpacing 3000 = 0 ∧
      tickLowerPlan 3000 12345 120 ≤ 12345 - 120 ∧
      12345 + 120 ≤ tickUpperPlan 3000 12345 120) :=
  ⟨Or.inr (Or.inl rfl), c3_tick_alignment 3000 12345 120 (Or.inr (Or.inl rfl))⟩

/-- C5: evaluation of the createPool ratio guard (priceRatio <= 0).
Zero and negative ratios are rejected and every finite positive ratio is
not rejected; but NaN and +Infinity are not rejected either, although the
specification requires all non-finite ratios to be rejected before any
external side effect. -/
theorem c5_guard_eval :
    createPoolRejects JSNum.nan = false ∧
    createPoolRejects JSNum.inf = false ∧
    createPoolRejects (JSNum.num 0) = true ∧
    createPoolRejects (JSNum.num (-5)) = true ∧
    (∀ q : ℚ, 0 < q → createPoolRejects (JSNum.num q) = false) := by
  refine ⟨rfl, rfl, by decide, by decide, ?_⟩
  intro q hq
  rw [createPoolRejects, jsLeZero, decide_eq_false_iff_not]
  exact not_le.mpr hq

/-- Witness for C5: the positive ratio 7 passes the guard. -/
theorem c5_witness :
    (0 : ℚ) < 7 ∧ createPoolRejects (JSNum.num 7) = false :=
  ⟨by norm_num, c5_guard_eval.2.2.2.2 7 (by norm_num)⟩

/-- C8: for every enumerated fee tier, positive half width, and current tick
whose symmetric range stays inside the legal tick range, the planned window
has strictly positive width. -/
theorem c8_window_nondegenerate (fee t r : ℤ)
    (hfee : fee = 500 ∨ fee = 3000 ∨ fee = 10000)
    (hr : 0 < r)
    (hlo : MIN_TICK + r ≤ t) (hhi : t ≤ MAX_TICK - r) :
    tickLowerPlan fee t r < tickUpperPlan fee t r := by
  have h1 := tickLowerPlan_le fee t r
  have h2 := le_tickUpperPlan fee t r
  omega

/-- Witness for C8 at fee 500, current tick 0, half width 120. -/
theorem c8_witness :
    (((500 : ℤ) = 500 ∨ (500 : ℤ) = 3000 ∨ (500 : ℤ) = 10000) ∧
      (0 : ℤ) < 120 ∧ MIN_TICK + 120 ≤ 0 ∧ (0 : ℤ) ≤ MAX_TICK - 120) ∧
    tickLowerPlan 500 0 120 < tickUpperPlan 500 0 120 :=
  ⟨⟨Or.inl rfl, by norm_num, by norm_num [MIN_TICK], by norm_num [MAX_TICK]⟩,
    c8_window_nondegenerate 500 0 120 (Or.inl rfl) (by norm_num)
      (by norm_num [MIN_TICK]) (by norm_num [MAX_TICK])⟩

/-- Helper: evaluate an integer floor from the two bracketing bounds. -/
theorem intFloorEq (q : ℚ) (n : ℤ) (h1 : (n : ℚ) ≤ q) (h2 : q < n + 1) : ⌊q⌋ = n :=
  Int.floor_eq_iff.mpr ⟨h1, h2⟩

/-- Helper: evaluate Nat.log2 at a point from the two bracketing powers. -/
theorem natLog2Eq (n k : ℕ) (h0 : n ≠ 0) (h1 : 2 ^ k ≤ n) (h2 : n < 2 ^ (k + 1)) :
    Nat.log2 n = k :=
  le_antisymm (Nat.lt_succ_iff.mp ((Nat.log2_lt h0).mpr h2)) ((Nat.le_log2 h0).mpr h1)

/-- Helper: evaluate the bignumber encoder at a concrete point.  Here n is
the rounded numerator of the 40-place division, N the integer below the
scaled radicand, k its integer square root and v the final floored value. -/
theorem calcEval (price : ℚ) (d0 d1 : ℕ) (n : ℤ) (N k v : ℕ)
    (hd1 : (n : ℚ) ≤ price * 10 ^ d1 / 10 ^ d0 * 10 ^ 40 + 1 / 2)
    (hd2 : price * 10 ^ d1 / 10 ^ d0 * 10 ^ 40 + 1 / 2 < n + 1)
    (hN1 : ((N : ℤ) : ℚ) ≤ 4 * ((n : ℚ) / 10 ^ 40) * 10 ^ 80)
    (hN2 : 4 * ((n : ℚ) / 10 ^ 40) * 10 ^ 80 < (N : ℤ) + 1)
    (hk1 : k * k ≤ N) (hk2 : N < (k + 1) * (k + 1))
    (hv1 : ((v : ℤ) : ℚ) ≤ (((k + 1) / 2 : ℕ) : ℚ) / 10 ^ 40 * 2 ^ 96)
    (hv2 : (((k + 1) / 2 : ℕ) : ℚ) / 10 ^ 40 * 2 ^ 96 < (v : ℤ) + 1) :
    calculateSqrtPriceX96Precise price d0 d1 = v := by
  rw [calculateSqrtPriceX96Precise, bnDiv40, roundHU40, intFloorEq _ n hd1 hd2, bnSqrt40,
    intFloorEq _ ((N : ℤ)) hN1 hN2, Int.toNat_ofNat, natSqrtEq N k hk1 hk2,
    intFloorEq _ ((v : ℤ)) hv1 hv2, Int.toNat_ofNat]

/-- Helper: evaluate the specification formula at a concrete point. -/
theorem specEval (price : ℚ) (d0 d1 : ℕ) (N k : ℕ)
    (hN1 : ((N : ℤ) : ℚ) ≤ price * 10 ^ d1 / 10 ^ d0 * 2 ^ 192)
    (hN2 : price * 10 ^ d1 / 10 ^ d0 * 2 ^ 192 < (N : ℤ) + 1)
    (hk1 : k * k ≤ N) (hk2 : N < (k + 1) * (k + 1)) :
    specSqrtPriceX96 price d0 d1 = k := by
  rw [specSqrtPriceX96, intFloorEq _ ((N : ℤ)) hN1 hN2, Int.toNat_ofNat,
    natSqrtEq N k hk1 hk2]

/-- Helper: the bignumber encoder at the decimal-adjustment test vector. -/
theorem calc_4000_18_6 :
    calculateSqrtPriceX96Precise 4000 18 6 = 5010828967500958623728276 :=
  calcEval 4000 18 6 (4 * 10 ^ 31) (16 * 10 ^ 71)
    1264911064067351732799557417773087413 5010828967500958623728276
    (by norm_num) (by norm_num) (by norm_num) (by norm_num)
    (by norm_num) (by norm_num) (by norm_num) (by norm_num)

/-- Helper: the specification formula at the decimal-adjustment test vector. -/
theorem spec_4000_18_6 :
    specSqrtPriceX96 4000 18 6 = 5010828967500958623728276 :=
  specEval 4000 18 6 25108406941546723055343157692830665664409421777856
    5010828967500958623728276
    (by norm_num) (by norm_num) (by norm_num) (by norm_num)

/-- C1 (amended): the encoder first forms the raw base-unit price
price * 10^(d1 - d0) and returns floor(sqrt(rawRatio) * 2^96), with the
division and the square root rounded to the configured 40 decimal places;
at the cited vector d0 = 18, d1 = 6, humanRatio = 4000 the roundings are
harmless and the returned value is exactly floor(sqrt(4 * 10^-9) * 2^96)
= 5010828967500958623728276. -/
theorem c1_decimal_adjustment :
    calculateSqrtPriceX96Precise 4000 18 6 = specSqrtPriceX96 4000 18 6 ∧
    specSqrtPriceX96 4000 18 6 = 5010828967500958623728276 :=
  ⟨calc_4000_18_6.trans spec_4000_18_6.symm, spec_4000_18_6⟩

/-- C1 counterexample: at humanRatio = 6, d0 = 41, d1 = 0 the 40-decimal
rounding of the raw base-unit price 6 * 10^-41 up to 10^-40 makes the
encoder return 792281625, while floor(sqrt(6 * 10^-41) * 2^96) = 613698707,
refuting the claim that the encoder returns floor(sqrt(rawRatio) * 2^96)
for every positive ratio and every pair of token decimals. -/
theorem c1_counterexample :
    calculateSqrtPriceX96Precise 6 41 0 = 792281625 ∧
    specSqrtPriceX96 6 41 0 = 613698707 ∧
    calculateSqrtPriceX96Precise 6 41 0 ≠ specSqrtPriceX96 6 41 0 := by
  have h1 : calculateSqrtPriceX96Precise 6 41 0 = 792281625 :=
    calcEval 6 41 0 1 (4 * 10 ^ 40) (2 * 10 ^ 20) 792281625
      (by norm_num) (by norm_num) (by norm_num) (by norm_num)
      (by norm_num) (by norm_num) (by norm_num) (by norm_num)
  have h2 : specSqrtPriceX96 6 41 0 = 613698707 :=
    specEval 6 41 0 376626104123200845 613698707
      (by norm_num) (by norm_num) (by norm_num) (by norm_num)
  exact ⟨h1, h2, by rw [h1, h2]; norm_num⟩

/-- Helper: the code's half width at fee tier 3000 is 5000 ticks. -/
theorem tickRange_3000 : tickRange 3000 = 5000 := by
  norm_num [tickRange, baseTickRange, tickSpacing]

/-- Helper: the planned lower bound at fee 3000 from the minimum legal tick. -/
theorem tickLowerPlan_c4 : tickLowerPlan 3000 MIN_TICK (tickRange 3000) = -892320 := by
  rw [tickRange_3000, tickLowerPlan, show tickSpacing 3000 = 60 from by norm_num [tickSpacing]]
  rw [show ((MIN_TICK - 5000 : ℤ) : ℚ) / ((60 : ℤ) : ℚ) = (-892272 : ℚ) / 60 from by
    norm_num [MIN_TICK]]
  rw [intFloorEq ((-892272 : ℚ) / 60) (-14872) (by norm_num) (by norm_num)]
  norm_num

/-- Helper: the planned upper bound at fee 3000 from the minimum legal tick. -/
theorem tickUpperPlan_c4 : tickUpperPlan 3000 MIN_TICK (tickRange 3000) = -882240 := by
  rw [tickRange_3000, tickUpperPlan, show tickSpacing 3000 = 60 from by norm_num [tickSpacing]]
  rw [show ((MIN_TICK + 5000 : ℤ) : ℚ) / ((60 : ℤ) : ℚ) = (-882272 : ℚ) / 60 from by
    norm_num [MIN_TICK]]
  rw [show ⌈(-882272 : ℚ) / 60⌉ = -14704 from by
    rw [Int.ceil_eq_iff]
    norm_num]
  norm_num

/-- C4 (amended): the planner performs no clamping to the legal tick range
and has no degenerate-window failure path: it returns the grid-rounded
bounds as computed.  At fee 3000 with currentTick = MIN_TICK and the code's
half width, the returned window is [-892320, -882240], whose lower bound
lies below MIN_TICK, and the window is still returned with positive width
rather than raising an error. -/
theorem c4_no_clamping :
    tickLowerPlan 3000 MIN_TICK (tickRange 3000) = -892320 ∧
    tickUpperPlan 3000 MIN_TICK (tickRange 3000) = -882240 ∧
    tickLowerPlan 3000 MIN_TICK (tickRange 3000) < MIN_TICK ∧
    tickLowerPlan 3000 MIN_TICK (tickRange 3000) <
      tickUpperPlan 3000 MIN_TICK (tickRange 3000) := by
  refine ⟨tickLowerPlan_c4, tickUpperPlan_c4, ?_, ?_⟩
  · rw [tickLowerPlan_c4]; norm_num [MIN_TICK]
  · rw [tickLowerPlan_c4, tickUpperPlan_c4]; norm_num

/-- C4 counterexample: the claim that both planned bounds are clamped into
the legal range [MIN_TICK, MAX_TICK] fails at fee 3000,
currentTick = MIN_TICK, half width tickRange 3000: the computed lower
bound -892320 falls below MIN_TICK = -887272 and is returned unclamped. -/
theorem c4_counterexample :
    ¬ MIN_TICK ≤ tickLowerPlan 3000 MIN_TICK (tickRange 3000) := by
  rw [tickLowerPlan_c4]
  norm_num [MIN_TICK]

/-- C10: the bignumber encoder depends only on the difference of the two
token decimal counts: shifting both by any k leaves the result unchanged,
because the exact quotient fed to the 40-place rounding is unchanged. -/
theorem c10_decimal_shift (price : ℚ) (d0 d1 k : ℕ) (hp : 0 < price) :
    calculateSqrtPriceX96Precise price (d0 + k) (d1 + k) =
      calculateSqrtPriceX96Precise price d0 d1 := by
  have h : bnDiv40 (price * 10 ^ (d1 + k)) (10 ^ (d0 + k)) =
      bnDiv40 (price * 10 ^ d1) (10 ^ d0) := by
    rw [bnDiv40, bnDiv40]
    congr 1
    rw [pow_add, pow_add, ← mul_assoc,
      mul_div_mul_right _ _ (pow_ne_zero k (by norm_num : (10 : ℚ) ≠ 0))]
  rw [calculateSqrtPriceX96Precise, calculateSqrtPriceX96Precise, h]

/-- Witness for C10 at price 3, decimals 1 and 2 shifted by 5. -/
theorem c10_witness :
    (0 : ℚ) < 3 ∧
    calculateSqrtPriceX96Precise 3 (1 + 5) (2 + 5) = calculateSqrtPriceX96Precise 3 1 2 :=
  ⟨by norm_num, c10_decimal_shift 3 1 2 5 (by norm_num)⟩

/-- Helper: the bignumber encoder at price 4 with equal decimals 18:
exactly 2 * 2^96. -/
theorem calc_4_18_18 :
    calculateSqrtPriceX96Precise 4 18 18 = 158456325028528675187087900672 :=
  calcEval 4 18 18 (4 * 10 ^ 40) (16 * 10 ^ 80) (4 * 10 ^ 40)
    158456325028528675187087900672
    (by norm_num) (by norm_num) (by norm_num) (by norm_num)
    (by norm_num) (by norm_num) (by norm_num) (by norm_num)

/-- Helper: the bignumber encoder at price 1/4 with equal decimals 18:
exactly 2^95. -/
theorem calc_quarter_18_18 :
    calculateSqrtPriceX96Precise (1 / 4) 18 18 = 39614081257132168796771975168 :=
  calcEval (1 / 4) 18 18 (25 * 10 ^ 38) (10 ^ 80) (10 ^ 40)
    39614081257132168796771975168
    (by norm_num) (by norm_num) (by norm_num) (by norm_num)
    (by norm_num) (by norm_num) (by norm_num) (by norm_num)

/-- Helper: the bignumber encoder at price 1 with equal decimals 18:
exactly 2^96. -/
theorem calc_1_18_18 :
    calculateSqrtPriceX96Precise 1 18 18 = 79228162514264337593543950336 :=
  calcEval 1 18 18 (10 ^ 40) (4 * 10 ^ 80) (2 * 10 ^ 40)
    79228162514264337593543950336
    (by norm_num) (by norm_num) (by norm_num) (by norm_num)
    (by norm_num) (by norm_num) (by norm_num) (by norm_num)

/-- Helper: the bignumber encoder at price 2 with equal decimals 18. -/
theorem calc_2_18_18 :
    calculateSqrtPriceX96Precise 2 18 18 = 112045541949572279837463876454 :=
  calcEval 2 18 18 (2 * 10 ^ 40) (8 * 10 ^ 80)
    28284271247461900976033774484193961571393 112045541949572279837463876454
    (by norm_num) (by norm_num) (by norm_num) (by norm_num)
    (by norm_num) (by norm_num) (by norm_num) (by norm_num)

/-- Helper: sorting the two distinct-symbol concrete tokens keeps the order. -/
theorem sort_PETH_PUSDC :
    sortTokens tokenPETH18 tokenPUSDC18 = (tokenPETH18, tokenPUSDC18) := by
  have h : strToLower tokenPETH18.address < strToLower tokenPUSDC18.address := by
    rw [String.lt_iff_toList_lt]; decide
  rw [sortTokens, if_pos h]

/-- C7: with both decimals 18 and tokens already in canonical order, the
encoder maps the human ratio 4 to exactly 2 * 2^96 (no rounding error). -/
theorem c7_same_decimal_shortcut :
    encodePrice tokenPETH18 tokenPUSDC18 4 = 2 * 2 ^ 96 := by
  have hc : ¬ (tokenPETH18.symbol = (tokenPETH18, tokenPUSDC18).2.symbol ∧
      tokenPUSDC18.symbol = (tokenPETH18, tokenPUSDC18).1.symbol) := by decide
  rw [encodePrice, sort_PETH_PUSDC, if_neg hc]
  exact calc_4_18_18.trans (by norm_num)

/-- Helper: nearest-ties-even rounding when the value is above the midpoint. -/
theorem nearestTEUp (q : ℚ) (m : ℕ)
    (h1 : ((m : ℤ) : ℚ) ≤ q) (h2 : q < ((m : ℤ) : ℚ) + 1)
    (h3 : (m : ℚ) + 1 / 2 < q) :
    nearestTE q = m + 1 := by
  rw [nearestTE, intFloorEq q (m : ℤ) h1 h2, Int.toNat_ofNat, if_pos h3]

/-- Helper: nearest-ties-even rounding when the value is below the midpoint. -/
theorem nearestTEDown (q : ℚ) (m : ℕ)
    (h1 : ((m : ℤ) : ℚ) ≤ q) (h2 : q < ((m : ℤ) : ℚ) + 1)
    (h3 : q < (m : ℚ) + 1 / 2) :
    nearestTE q = m := by
  rw [nearestTE, intFloorEq q (m : ℤ) h1 h2, Int.toNat_ofNat, if_neg (lt_asymm h3),
    if_pos h3]

/-- Helper: nearest-ties-even rounding at an exact midpoint with even floor. -/
theorem nearestTETie (q : ℚ) (m : ℕ)
    (h3 : q = (m : ℚ) + 1 / 2) (h4 : m % 2 = 0) :
    nearestTE q = m := by
  have h1 : ((m : ℤ) : ℚ) ≤ q := by rw [h3]; push_cast; linarith
  have h2 : q < ((m : ℤ) : ℚ) + 1 := by rw [h3]; push_cast; linarith
  rw [nearestTE, intFloorEq q (m : ℤ) h1 h2, Int.toNat_ofNat,
    if_neg (by rw [h3]; exact lt_irrefl _), if_neg (by rw [h3]; exact lt_irrefl _),
    if_pos h4]

/-- Helper: binary64 rounding of 1/5 (the value 0.2 is not a binary64
value; its nearest double lies 2/5 of an ulp above it). -/
theorem roundB64T_fifth : roundB64T (1 / 5) = (2 ^ 600 - 1) / 5 := by
  rw [roundB64T,
    intFloorEq ((1 / 5 : ℚ) * 2 ^ 600) ((((2 ^ 600 - 1) / 5 : ℕ)) : ℤ)
      (by norm_num) (by norm_num),
    Int.toNat_ofNat]

/-- Helper: the binary exponent of 1/5 is -3. -/
theorem roundB64Exp_fifth : roundB64Exp (1 / 5) = -3 := by
  rw [roundB64Exp, roundB64T_fifth,
    natLog2Eq ((2 ^ 600 - 1) / 5) 597 (by norm_num) (by norm_num) (by norm_num)]
  norm_num

/-- Helper: the rounded significand of 1/5. -/
theorem roundB64M_fifth : roundB64M (1 / 5) = 7205759403792794 := by
  rw [roundB64M, roundB64Sig, roundB64Exp_fifth,
    show (1 / 5 : ℚ) * 2 ^ ((52 : ℤ) - (-3)) = 2 ^ 55 / 5 from by norm_num]
  exact (nearestTEUp (2 ^ 55 / 5) 7205759403792793 (by norm_num) (by norm_num)
    (by norm_num)).trans (by norm_num)

/-- Helper: the binary64 value nearest to 1/5. -/
theorem roundB64_fifth : roundB64 (1 / 5) = 7205759403792794 / 2 ^ 55 := by
  rw [roundB64, roundB64M_fifth, roundB64Exp_fifth]
  norm_num

/-- Helper: 1/4 is exactly a binary64 value, step 1. -/
theorem roundB64T_quarter : roundB64T (1 / 4) = 2 ^ 598 := by
  rw [roundB64T,
    intFloorEq ((1 / 4 : ℚ) * 2 ^ 600) (((2 ^ 598 : ℕ)) : ℤ) (by norm_num) (by norm_num),
    Int.toNat_ofNat]

/-- Helper: the binary exponent of 1/4 is -2. -/
theorem roundB64Exp_quarter : roundB64Exp (1 / 4) = -2 := by
  rw [roundB64Exp, roundB64T_quarter,
    natLog2Eq (2 ^ 598) 598 (by norm_num) (by norm_num) (by norm_num)]
  norm_num

/-- Helper: the rounded significand of 1/4 is exact. -/
theorem roundB64M_quarter : roundB64M (1 / 4) = 2 ^ 52 := by
  rw [roundB64M, roundB64Sig, roundB64Exp_quarter,
    show (1 / 4 : ℚ) * 2 ^ ((52 : ℤ) - (-2)) = ((2 ^ 52 : ℕ) : ℚ) from by push_cast; norm_num]
  exact nearestTEDown ((2 ^ 52 : ℕ) : ℚ) (2 ^ 52) (by norm_num) (by norm_num) (by norm_num)

/-- Helper: 1/4 rounds to itself in binary64. -/
theorem roundB64_quarter : roundB64 (1 / 4) = 1 / 4 := by
  rw [roundB64, roundB64M_quarter, roundB64Exp_quarter]
  push_cast
  norm_num

/-- Helper: 4 is exactly a binary64 value, step 1. -/
theorem roundB64T_four : roundB64T 4 = 2 ^ 602 := by
  rw [roundB64T,
    intFloorEq ((4 : ℚ) * 2 ^ 600) (((2 ^ 602 : ℕ)) : ℤ) (by norm_num) (by norm_num),
    Int.toNat_ofNat]

/-- Helper: the binary exponent of 4 is 2. -/
theorem roundB64Exp_four : roundB64Exp 4 = 2 := by
  rw [roundB64Exp, roundB64T_four,
    natLog2Eq (2 ^ 602) 602 (by norm_num) (by norm_num) (by norm_num)]
  norm_num

/-- Helper: the rounded significand of 4 is exact. -/
theorem roundB64M_four : roundB64M 4 = 2 ^ 52 := by
  rw [roundB64M, roundB64Sig, roundB64Exp_four,
    show (4 : ℚ) * 2 ^ ((52 : ℤ) - 2) = ((2 ^ 52 : ℕ) : ℚ) from by push_cast; norm_num]
  exact nearestTEDown ((2 ^ 52 : ℕ) : ℚ) (2 ^ 52) (by norm_num) (by norm_num) (by norm_num)

/-- Helper: 4 rounds to itself in binary64. -/
theorem roundB64_four : roundB64 4 = 4 := by
  rw [roundB64, roundB64M_four, roundB64Exp_four]
  push_cast
  norm_num

/-- Helper: the decimal exponent of 1/4 is 0. -/
theorem decExp_quarter : decExp (1 / 4) = 0 := by
  rw [decExp, decExpT,
    intFloorEq ((1 / 4 : ℚ) * 10 ^ 400) (((25 * 10 ^ 398 : ℕ)) : ℤ)
      (by norm_num) (by norm_num),
    Int.toNat_ofNat,
    Nat.log_eq_of_pow_le_of_lt_pow
      (show 10 ^ 399 ≤ 25 * 10 ^ 398 from by norm_num)
      (show 25 * 10 ^ 398 < 10 ^ (399 + 1) from by norm_num)]
  norm_num

/-- Helper: the decimal exponent of 4 is 1. -/
theorem decExp_four : decExp 4 = 1 := by
  rw [decExp, decExpT,
    intFloorEq ((4 : ℚ) * 10 ^ 400) (((4 * 10 ^ 400 : ℕ)) : ℤ) (by norm_num) (by norm_num),
    Int.toNat_ofNat,
    Nat.log_eq_of_pow_le_of_lt_pow
      (show 10 ^ 400 ≤ 4 * 10 ^ 400 from by norm_num)
      (show 4 * 10 ^ 400 < 10 ^ (400 + 1) from by norm_num)]
  norm_num

/-- Helper: the decimal string of the binary64 value 1/4 is 0.25, of value
exactly 1/4: one significant digit (0.2 or 0.3) does not round-trip, two
digits do. -/
theorem jsStr_quarter : jsStr (1 / 4) = 1 / 4 := by
  have hne : ¬ roundB64 (1 / 5) = 1 / 4 := by
    rw [roundB64_fifth]
    norm_num
  rw [jsStr, decExp_quarter, jsStrGo,
    show (1 / 4 : ℚ) * 10 ^ (((1 : ℕ) : ℤ) - 0) = 5 / 2 from by push_cast; norm_num,
    nearestTETie (5 / 2) 2 (by norm_num) (by norm_num),
    show (((2 : ℕ)) : ℚ) * 10 ^ ((0 : ℤ) - ((1 : ℕ) : ℤ)) = 1 / 5 from by push_cast; norm_num,
    if_neg hne, jsStrGo,
    show (1 / 4 : ℚ) * 10 ^ (((2 : ℕ) : ℤ) - 0) = 25 from by push_cast; norm_num,
    nearestTEDown 25 25 (by norm_num) (by norm_num) (by norm_num),
    show (((25 : ℕ)) : ℚ) * 10 ^ ((0 : ℤ) - ((2 : ℕ) : ℤ)) = 1 / 4 from by push_cast; norm_num,
    if_pos roundB64_quarter]

/-- Helper: the decimal string of the binary64 value 4 is 4, of value
exactly 4. -/
theorem jsStr_four : jsStr 4 = 4 := by
  rw [jsStr, decExp_four, jsStrGo,
    show (4 : ℚ) * 10 ^ (((1 : ℕ) : ℤ) - 1) = 4 from by push_cast; norm_num,
    nearestTEDown 4 4 (by norm_num) (by norm_num) (by norm_num),
    show (((4 : ℕ)) : ℚ) * 10 ^ ((1 : ℤ) - ((1 : ℕ) : ℤ)) = 4 from by push_cast; norm_num,
    if_pos roundB64_four]

/-- Helper: the program's inversion of the ratio 4 is exact: the binary64
quotient 1/4 is exact and its decimal string 0.25 has value exactly 1/4. -/
theorem jsInv_four : jsInv 4 = 1 / 4 := by
  rw [jsInv, roundB64_quarter, jsStr_quarter]

/-- Helper: the program's inversion of the ratio 1/4 is exact. -/
theorem jsInv_quarter : jsInv (1 / 4) = 4 := by
  rw [jsInv, show (1 : ℚ) / (1 / 4) = 4 from by norm_num, roundB64_four, jsStr_four]

/-- C6 (amended): for tokens with distinct lowercased addresses and distinct
symbol strings, and a positive ratio at which the program's inversion - the
binary64 division 1 / priceRatio followed by the decimal-string handoff to
the bignumber constructor - is exact in both directions, encoding with the
pair swapped and the ratio inverted gives the same result.  The current
implementation detects the swap by comparing symbols, so the identity also
requires the two symbols to differ. -/
theorem c6_inversion (tA tB : Token) (price : ℚ) (hp : 0 < price)
    (haddr : strToLower tA.address ≠ strToLower tB.address)
    (hsym : tA.symbol ≠ tB.symbol)
    (hinv1 : jsInv price = 1 / price)
    (hinv2 : jsInv (1 / price) = price) :
    encodePrice tA tB price = encodePrice tB tA (1 / price) := by
  rcases lt_or_gt_of_ne haddr with h | h
  · have h1 : sortTokens tA tB = (tA, tB) := by rw [sortTokens, if_pos h]
    have h2 : sortTokens tB tA = (tA, tB) := by rw [sortTokens, if_neg (asymm h)]
    have hc1 : ¬ (tA.symbol = (tA, tB).2.symbol ∧ tB.symbol = (tA, tB).1.symbol) :=
      fun hh => hsym hh.1
    have hc2 : tB.symbol = (tA, tB).2.symbol ∧ tA.symbol = (tA, tB).1.symbol := ⟨rfl, rfl⟩
    rw [encodePrice, encodePrice, h1, h2, if_neg hc1, if_pos hc2, hinv2]
  · have h1 : sortTokens tA tB = (tB, tA) := by rw [sortTokens, if_neg (asymm h)]
    have h2 : sortTokens tB tA = (tB, tA) := by rw [sortTokens, if_pos h]
    have hc1 : tA.symbol = (tB, tA).2.symbol ∧ tB.symbol = (tB, tA).1.symbol := ⟨rfl, rfl⟩
    have hc2 : ¬ (tB.symbol = (tB, tA).2.symbol ∧ tA.symbol = (tB, tA).1.symbol) :=
      fun hh => hsym hh.1.symm
    rw [encodePrice, encodePrice, h1, h2, if_pos hc1, if_neg hc2, hinv1]

/-- Witness for C6 with an 18-decimals and a 6-decimals token and ratio 4,
at which the program's binary64-and-string inversion is exact both ways. -/
theorem c6_witness :
    ((0 : ℚ) < 4 ∧ strToLower tokenPETH18.address ≠ strToLower tokenPUSDC6.address ∧
      tokenPETH18.symbol ≠ tokenPUSDC6.symbol ∧
      jsInv 4 = 1 / 4 ∧ jsInv (1 / 4) = 4) ∧
    encodePrice tokenPETH18 tokenPUSDC6 4 = encodePrice tokenPUSDC6 tokenPETH18 (1 / 4) :=
  ⟨⟨by norm_num, by decide, by decide, jsInv_four, jsInv_quarter⟩,
    c6_inversion tokenPETH18 tokenPUSDC6 4 (by norm_num) (by decide) (by decide)
      jsInv_four jsInv_quarter⟩

/-- C6 counterexample: two distinct tokens sharing the symbol TKN break the
inversion identity even though the inversion of 4 is exact in binary64: the
symbol comparison treats the pair as swapped in both call orders, so
encode(A, B, 4) = 2^95 but encode(B, A, 1/4) = 2^97. -/
theorem c6_counterexample :
    encodePrice tokenDupA tokenDupB 4 ≠ encodePrice tokenDupB tokenDupA (1 / 4) := by
  have hlt : strToLower tokenDupA.address < strToLower tokenDupB.address := by
    rw [String.lt_iff_toList_lt]; decide
  have hnlt : ¬ strToLower tokenDupB.address < strToLower tokenDupA.address := asymm hlt
  have hsAB : sortTokens tokenDupA tokenDupB = (tokenDupA, tokenDupB) := by
    rw [sortTokens, if_pos hlt]
  have hsBA : sortTokens tokenDupB tokenDupA = (tokenDupA, tokenDupB) := by
    rw [sortTokens, if_neg hnlt]
  have hc1 : tokenDupA.symbol = (tokenDupA, tokenDupB).2.symbol ∧
      tokenDupB.symbol = (tokenDupA, tokenDupB).1.symbol := ⟨rfl, rfl⟩
  have hc2 : tokenDupB.symbol = (tokenDupA, tokenDupB).2.symbol ∧
      tokenDupA.symbol = (tokenDupA, tokenDupB).1.symbol := ⟨rfl, rfl⟩
  have e1 : encodePrice tokenDupA tokenDupB 4 = 39614081257132168796771975168 := by
    rw [encodePrice, hsAB, if_pos hc1, jsInv_four]
    exact calc_quarter_18_18
  have e2 : encodePrice tokenDupB tokenDupA (1 / 4) = 158456325028528675187087900672 := by
    rw [encodePrice, hsBA, if_pos hc2, jsInv_quarter]
    exact calc_4_18_18
  rw [e1, e2]
  norm_num

/-- Helper: the scaled truncated square root of 2 at 600 fractional bits. -/
theorem sqrtDoubleT_two :
    sqrtDoubleT 2 =
      5868301194789809119629771762755819094340843067817777201764554270604570416549902378615745683048382424946362370207392292880081005674742978107267763440321894846472964872936174272252728 := by
  rw [sqrtDoubleT,
    intFloorEq ((2 : ℚ) * 2 ^ 1200) ((2 ^ 1201 : ℕ) : ℤ) (by norm_num) (by norm_num),
    Int.toNat_ofNat,
    natSqrtEq (2 ^ 1201)
      5868301194789809119629771762755819094340843067817777201764554270604570416549902378615745683048382424946362370207392292880081005674742978107267763440321894846472964872936174272252728
      (by norm_num) (by norm_num)]

/-- Helper: the binary exponent of the square root of 2 is 0. -/
theorem sqrtDoubleExp_two : sqrtDoubleExp 2 = 0 := by
  rw [sqrtDoubleExp, sqrtDoubleT_two,
    natLog2Eq _ 600 (by norm_num) (by norm_num) (by norm_num)]
  norm_num

/-- Helper: the scaled radicand for the 53-bit significand of sqrt 2. -/
theorem sqrtDoubleScaled_two : sqrtDoubleScaled 2 = (2 * 4 ^ 52 : ℚ) := by
  rw [sqrtDoubleScaled, sqrtDoubleExp_two]
  norm_num

/-- Helper: the truncated 53-bit significand of sqrt 2. -/
theorem sqrtDoubleM0_two : sqrtDoubleM0 2 = 6369051672525772 := by
  rw [sqrtDoubleM0, sqrtDoubleScaled_two,
    intFloorEq (2 * 4 ^ 52 : ℚ) ((2 * 4 ^ 52 : ℕ) : ℤ) (by norm_num) (by norm_num),
    Int.toNat_ofNat,
    natSqrtEq (2 * 4 ^ 52) 6369051672525772 (by norm_num) (by norm_num)]

/-- Helper: the rounded 53-bit significand of sqrt 2 (rounds up). -/
theorem sqrtDoubleM_two : sqrtDoubleM 2 = 6369051672525773 := by
  have hcond : ((2 * (6369051672525772 : ℕ) + 1 : ℕ) : ℚ) ^ 2 < 4 * (2 * 4 ^ 52 : ℚ) := by
    norm_num
  rw [sqrtDoubleM, sqrtDoubleM0_two, sqrtDoubleScaled_two, if_pos hcond]

/-- Helper: the binary64 value of Math.sqrt(2). -/
theorem sqrtDouble_two : sqrtDouble 2 = (6369051672525773 : ℚ) / 2 ^ 52 := by
  rw [sqrtDouble, sqrtDoubleM_two, sqrtDoubleExp_two]
  norm_num

/-- Helper: Math.sqrt(2).toFixed(18) parsed at 18 decimals. -/
theorem toFixed18Units_sqrt2 :
    toFixed18Units ((6369051672525773 : ℚ) / 2 ^ 52) = 1414213562373095145 := by
  rw [toFixed18Units,
    intFloorEq _ ((1414213562373095145 : ℕ) : ℤ) (by norm_num) (by norm_num),
    Int.toNat_ofNat]

/-- Helper: the floating-point encoder at price 2 with equal decimals 18. -/
theorem calcFloat_2_18_18 :
    calculateSqrtPriceX96PreciseFloat 2 18 18 = some 112045541949572287459079315811 := by
  rw [calculateSqrtPriceX96PreciseFloat, if_pos rfl,
    if_neg (by norm_num : ¬ (2 : ℚ) = 1), if_neg (by norm_num : ¬ (2 : ℚ) = 4),
    sqrtDouble_two, toFixed18Units_sqrt2]
  norm_num

/-- C9 (amended): the floating-point and the bignumber implementations of
calculateSqrtPriceX96Precise agree on the specially handled equal-decimals
inputs price 1 and price 4, where both are exact. -/
theorem c9_special_cases :
    calculateSqrtPriceX96PreciseFloat 1 18 18 = some (calculateSqrtPriceX96Precise 1 18 18) ∧
    calculateSqrtPriceX96PreciseFloat 4 18 18 = some (calculateSqrtPriceX96Precise 4 18 18) := by
  constructor
  · rw [calc_1_18_18, calculateSqrtPriceX96PreciseFloat, if_pos rfl, if_pos rfl]
    norm_num
  · rw [calc_4_18_18, calculateSqrtPriceX96PreciseFloat, if_pos rfl,
      if_neg (by norm_num : ¬ (4 : ℚ) = 1), if_pos rfl]
    norm_num

/-- C9 counterexample: at price 2 with equal decimals 18 the floating-point
implementation returns 112045541949572287459079315811 (the binary64 value
of sqrt 2 is about 4.3 hundred-quadrillionths of a unit above the real
square root, and the excess survives the scaling by 2^96), while the
bignumber implementation returns 112045541949572279837463876454, so the
two implementations do not agree for every positive price. -/
theorem c9_counterexample :
    calculateSqrtPriceX96PreciseFloat 2 18 18 = some 112045541949572287459079315811 ∧
    calculateSqrtPriceX96Precise 2 18 18 = 112045541949572279837463876454 ∧
    calculateSqrtPriceX96PreciseFloat 2 18 18 ≠
      some (calculateSqrtPriceX96Precise 2 18 18) := by
  refine ⟨calcFloat_2_18_18, calc_2_18_18, ?_⟩
  rw [calcFloat_2_18_18, calc_2_18_18]
  simp

/-- Supporting theorem: the integer-arithmetic rendering of the spec formula
is faithful: for a nonnegative canonical price it equals the natural floor
of sqrt(rawRatio) * 2^96 computed over the real numbers. -/
theorem specSqrtPriceX96_eq_floor_sqrt (price : ℚ) (d0 d1 : ℕ) (hp : 0 ≤ price) :
    specSqrtPriceX96 price d0 d1 =
      ⌊Real.sqrt ((price * 10 ^ d1 / 10 ^ d0 : ℚ) : ℝ) * 2 ^ 96⌋₊ := by
  rw [specSqrtPriceX96]
  set x : ℚ := price * 10 ^ d1 / 10 ^ d0 with hxdef
  have hx0 : (0 : ℚ) ≤ x := by
    rw [hxdef]
    positivity
  have hy0 : (0 : ℚ) ≤ x * 2 ^ 192 := by positivity
  have hfl0 : (0 : ℤ) ≤ ⌊x * 2 ^ 192⌋ := Int.floor_nonneg.mpr hy0
  set N : ℕ := (⌊x * 2 ^ 192⌋).toNat with hNdef
  have hNle : ((N : ℕ) : ℚ) ≤ x * 2 ^ 192 := by
    rw [hNdef]
    rw [show (((⌊x * 2 ^ 192⌋).toNat : ℕ) : ℚ) = ((⌊x * 2 ^ 192⌋ : ℤ) : ℚ) from by
      exact_mod_cast congrArg (fun z : ℤ => (z : ℚ)) (Int.toNat_of_nonneg hfl0)]
    exact Int.floor_le _
  have hNlt : x * 2 ^ 192 < ((N : ℕ) : ℚ) + 1 := by
    rw [hNdef]
    rw [show (((⌊x * 2 ^ 192⌋).toNat : ℕ) : ℚ) = ((⌊x * 2 ^ 192⌋ : ℤ) : ℚ) from by
      exact_mod_cast congrArg (fun z : ℤ => (z : ℚ)) (Int.toNat_of_nonneg hfl0)]
    exact Int.lt_floor_add_one _
  have hb1 : ((Nat.sqrt N : ℚ)) * (Nat.sqrt N : ℚ) ≤ x * 2 ^ 192 := by
    refine le_trans ?_ hNle
    exact_mod_cast Nat.sqrt_le N
  have hb2 : x * 2 ^ 192 < ((Nat.sqrt N : ℚ) + 1) * ((Nat.sqrt N : ℚ) + 1) := by
    refine lt_of_lt_of_le hNlt ?_
    exact_mod_cast Nat.lt_succ_sqrt N
  have hs : Real.sqrt ((x : ℚ) : ℝ) * 2 ^ 96 = Real.sqrt (((x : ℚ) : ℝ) * 2 ^ 192) := by
    rw [Real.sqrt_mul (by exact_mod_cast hx0) ((2 : ℝ) ^ 192),
      show ((2 : ℝ) ^ 192) = ((2 : ℝ) ^ 96) ^ 2 from by ring,
      Real.sqrt_sq (by positivity)]
  rw [eq_comm, Nat.floor_eq_iff (by positivity), hs]
  constructor
  · rw [Real.le_sqrt (by positivity) (by positivity)]
    have : ((Nat.sqrt N : ℝ)) * (Nat.sqrt N : ℝ) ≤ ((x : ℚ) : ℝ) * 2 ^ 192 := by
      calc ((Nat.sqrt N : ℝ)) * (Nat.sqrt N : ℝ)
          = (((Nat.sqrt N : ℚ) * (Nat.sqrt N : ℚ) : ℚ) : ℝ) := by push_cast; ring
        _ ≤ ((x * 2 ^ 192 : ℚ) : ℝ) := by exact_mod_cast hb1
        _ = ((x : ℚ) : ℝ) * 2 ^ 192 := by push_cast; ring
    calc ((Nat.sqrt N : ℝ)) ^ 2 = (Nat.sqrt N : ℝ) * (Nat.sqrt N : ℝ) := by ring
      _ ≤ ((x : ℚ) : ℝ) * 2 ^ 192 := this
  · rw [Real.sqrt_lt' (by positivity)]
    have : ((x : ℚ) : ℝ) * 2 ^ 192 < ((Nat.sqrt N : ℝ) + 1) * ((Nat.sqrt N : ℝ) + 1) := by
      calc ((x : ℚ) : ℝ) * 2 ^ 192 = ((x * 2 ^ 192 : ℚ) : ℝ) := by push_cast; ring
        _ < (((Nat.sqrt N : ℚ) + 1) * ((Nat.sqrt N : ℚ) + 1) : ℝ) := by exact_mod_cast hb2
        _ = ((Nat.sqrt N : ℝ) + 1) * ((Nat.sqrt N : ℝ) + 1) := by push_cast; ring
    calc ((x : ℚ) : ℝ) * 2 ^ 192 < ((Nat.sqrt N : ℝ) + 1) * ((Nat.sqrt N : ℝ) + 1) := this
      _ = ((Nat.sqrt N : ℝ) + 1) ^ 2 := by ring

/-- Supporting lemma: the integer square root of the floor of a nonnegative
rational is the natural floor of its real square root. -/
theorem natSqrt_floor_toNat (y : ℚ) (hy : 0 ≤ y) :
    Nat.sqrt (⌊y⌋).toNat = ⌊Real.sqrt ((y : ℚ) : ℝ)⌋₊ := by
  have hfl0 : (0 : ℤ) ≤ ⌊y⌋ := Int.floor_nonneg.mpr hy
  set N : ℕ := (⌊y⌋).toNat with hNdef
  have hcast : ((N : ℕ) : ℚ) = ((⌊y⌋ : ℤ) : ℚ) := by
    exact_mod_cast congrArg (fun z : ℤ => (z : ℚ)) (Int.toNat_of_nonneg hfl0)
  have hNle : ((N : ℕ) : ℚ) ≤ y := by rw [hcast]; exact Int.floor_le _
  have hNlt : y < ((N : ℕ) : ℚ) + 1 := by rw [hcast]; exact Int.lt_floor_add_one _
  have hb1 : ((Nat.sqrt N : ℚ)) * (Nat.sqrt N : ℚ) ≤ y := by
    refine le_trans ?_ hNle
    exact_mod_cast Nat.sqrt_le N
  have hb2 : y < ((Nat.sqrt N : ℚ) + 1) * ((Nat.sqrt N : ℚ) + 1) := by
    refine lt_of_lt_of_le hNlt ?_
    exact_mod_cast Nat.lt_succ_sqrt N
  rw [eq_comm, Nat.floor_eq_iff (Real.sqrt_nonneg _)]
  constructor
  · rw [Real.le_sqrt (by positivity) (by exact_mod_cast hy)]
    calc ((Nat.sqrt N : ℝ)) ^ 2 = (((Nat.sqrt N : ℚ) * (Nat.sqrt N : ℚ) : ℚ) : ℝ) := by
          push_cast; ring
      _ ≤ ((y : ℚ) : ℝ) := by exact_mod_cast hb1
  · rw [Real.sqrt_lt' (by positivity)]
    calc ((y : ℚ) : ℝ) < (((Nat.sqrt N : ℚ) + 1) * ((Nat.sqrt N : ℚ) + 1) : ℝ) := by
          exact_mod_cast hb2
      _ = ((Nat.sqrt N : ℝ) + 1) ^ 2 := by push_cast; ring

/-- Supporting lemma: folding a half-up rounding into the floor of the
doubled value: for nonnegative v, (floor(2 v) + 1) / 2 = floor(v + 1/2)
with truncating natural division on the left. -/
theorem halfUpFold (v : ℝ) (hv : 0 ≤ v) :
    (⌊2 * v⌋₊ + 1) / 2 = ⌊v + 1 / 2⌋₊ := by
  set n : ℕ := ⌊2 * v⌋₊ with hndef
  have h1 : ((n : ℕ) : ℝ) ≤ 2 * v := Nat.floor_le (by positivity)
  have h2 : 2 * v < ((n : ℕ) : ℝ) + 1 := Nat.lt_floor_add_one _
  rcases Nat.even_or_odd n with ⟨m, hm⟩ | ⟨m, hm⟩
  · have hdiv : (n + 1) / 2 = m := by omega
    rw [hdiv, eq_comm, Nat.floor_eq_iff (by positivity)]
    rw [hm] at h1 h2
    constructor
    · push_cast at h1 ⊢
      linarith
    · push_cast at h2 ⊢
      linarith
  · have hdiv : (n + 1) / 2 = m + 1 := by omega
    rw [hdiv, eq_comm, Nat.floor_eq_iff (by positivity)]
    rw [hm] at h1 h2
    constructor
    · push_cast at h1 ⊢
      linarith
    · push_cast at h2 ⊢
      linarith

/-- Supporting theorem: the integer-arithmetic rendering of the bignumber
square root is faithful: for a nonnegative argument it is exactly the real
square root rounded half-up to 40 decimal places. -/
theorem bnSqrt40_eq_round_sqrt (q : ℚ) (hq : 0 ≤ q) :
    bnSqrt40 q = ((⌊Real.sqrt ((q : ℚ) : ℝ) * 10 ^ 40 + 1 / 2⌋₊ : ℕ) : ℚ) / 10 ^ 40 := by
  rw [bnSqrt40]
  have h4 : (0 : ℚ) ≤ 4 * q * 10 ^ 80 := by positivity
  rw [natSqrt_floor_toNat (4 * q * 10 ^ 80) h4]
  have hsq : Real.sqrt (((4 * q * 10 ^ 80 : ℚ) : ℝ)) =
      2 * (Real.sqrt ((q : ℚ) : ℝ) * 10 ^ 40) := by
    have hrw : ((4 * q * 10 ^ 80 : ℚ) : ℝ) = ((q : ℚ) : ℝ) * (2 * 10 ^ 40) ^ 2 := by
      push_cast
      ring
    rw [hrw, Real.sqrt_mul (by exact_mod_cast hq) ((2 * 10 ^ 40 : ℝ) ^ 2),
      Real.sqrt_sq (by positivity)]
    ring
  rw [hsq, halfUpFold (Real.sqrt ((q : ℚ) : ℝ) * 10 ^ 40) (by positivity)]

end PushSwap
